import Mathlib

/-! Verification of the git-flash-js agent core: path guard, tool executor,
    directory-tree listing and the agent loop, shallowly embedded from the
    program source (index.js). -/

namespace GitFlash

/-- Splits a path string into its `/`-separated components, dropping empty
components (models the component view used by Node's `path` module). -/
def splitPathAux : List Char → List Char → List String
  | [], acc => if acc.isEmpty then [] else [String.mk acc.reverse]
  | c :: cs, acc =>
    if c = '/' then
      (if acc.isEmpty then splitPathAux cs [] else String.mk acc.reverse :: splitPathAux cs [])
    else splitPathAux cs (c :: acc)

def splitPath (s : String) : List String := splitPathAux s.data []

/-- Resolves `.` and `..` components left to right; `..` at the root stays at
the root, exactly as `path.resolve` does on POSIX. -/
def normalizeComps (comps : List String) : List String :=
  comps.foldl (fun acc c =>
    if c = "." then acc
    else if c = ".." then acc.dropLast
    else acc ++ [c]) []

def joinSlash : List String → String
  | [] => ""
  | [c] => c
  | c :: rest => c ++ "/" ++ joinSlash rest

/-- Character-level string prefix test (models JS `String.prototype.startsWith`). -/
def strStartsWith (s p : String) : Bool := p.data.isPrefixOf s.data

/-- Models Node's `path.resolve(base, p)` for an absolute `base`: an absolute
`p` is normalized on its own, a relative `p` is appended to `base` first. -/
def pathResolve (base p : String) : String :=
  let comps :=
    if strStartsWith p "/" then normalizeComps (splitPath p)
    else normalizeComps (splitPath base ++ splitPath p)
  "/" ++ joinSlash comps

/-- The Path Guard, from `getSafePath` in the source: resolve the target
against the working directory and reject when the resolved string does not
start with the working directory string. -/
def getSafePath (workingDirectory targetPath : String) : Except String String :=
  let workDir := pathResolve "/" workingDirectory
  let resolvedTargetPath := pathResolve workDir targetPath
  if strStartsWith resolvedTargetPath workDir then Except.ok resolvedTargetPath
  else Except.error ("Path access denied: '" ++ targetPath ++ "' is outside the project directory.")

/-- The spec's notion of confinement: the resolved path is the working
directory itself or a strict descendant of it (modelled from the spec,
for comparison with the source's `getSafePath`). -/
def isWithin (w p : String) : Bool := p = w || (w ++ "/").data.isPrefixOf p.data

/-- A filesystem node: a regular file with text content, or a directory with
named entries (the association order models on-disk readdir order). -/
inductive FsNode where
  | file (content : String)
  | dir (entries : List (String × FsNode))

/-- Follows a component path down the tree (models stat/open on an absolute
path whose components are `p`). -/
def FsNode.lookup : FsNode → List String → Option FsNode
  | n, [] => some n
  | .file _, _ :: _ => none
  | .dir es, c :: cs =>
    match es.find? (fun e => e.1 = c) with
    | some e => e.2.lookup cs
    | none => none

/-- Replaces the entry named `c` (or appends it) in a directory entry list. -/
def setEntry : List (String × FsNode) → String → FsNode → List (String × FsNode)
  | [], c, n => [(c, n)]
  | e :: es, c, n => if e.1 = c then (c, n) :: es else e :: setEntry es c n

/-- Models `fs.rm(p, recursive, force)` (Node's rimraf): removes the node at
`p` recursively. `force` swallows only a missing target (ENOENT), so a
missing path leaves the tree unchanged and succeeds; an intermediate path
component that is an existing regular file still rejects with ENOTDIR, and
removing the root of the tree itself rejects (EBUSY on Linux). -/
def fsRm : FsNode → List String → Except String FsNode
  | _, [] => .error "EBUSY: resource busy or locked"
  | .file _, _ :: _ => .error "ENOTDIR: not a directory"
  | .dir es, [c] => .ok (.dir (es.filter (fun e => e.1 ≠ c)))
  | .dir es, c :: cs =>
    match es.find? (fun e => e.1 = c) with
    | some e =>
      match fsRm e.2 cs with
      | .ok child => .ok (.dir (setEntry es c child))
      | .error m => .error m
    | none => .ok (.dir es)

/-- Whether walking `p` from this node runs into a regular file before the
final component — the ENOTDIR condition of `fsRm` (and of the underlying
syscalls). -/
def fileObstructs : FsNode → List String → Bool
  | _, [] => false
  | .file _, _ :: _ => true
  | .dir es, c :: cs =>
    match es.find? (fun e => e.1 = c) with
    | some e => fileObstructs e.2 cs
    | none => false

/-- Pure detachment of the entry at `p` (a no-op when absent): the removal
half of `unlink` and `rename`, whose callers have already resolved `p`. -/
def fsRemove : FsNode → List String → FsNode
  | n, [] => n
  | .file c, _ :: _ => .file c
  | .dir es, [c] => .dir (es.filter (fun e => e.1 ≠ c))
  | .dir es, c :: cs => .dir (es.map (fun e => if e.1 = c then (e.1, fsRemove e.2 cs) else e))

/-- Models `fs.readdir(p)`: entry names of the directory at `p`. -/
def fsReaddir (fs : FsNode) (p : List String) : Except String (List String) :=
  match fs.lookup p with
  | some (.dir es) => .ok (es.map (fun e => e.1))
  | some (.file _) => .error "ENOTDIR: not a directory"
  | none => .error "ENOENT: no such file or directory"

/-- Models `fs.readFile(p)`. -/
def fsReadFile (fs : FsNode) (p : List String) : Except String String :=
  match fs.lookup p with
  | some (.file c) => .ok c
  | some (.dir _) => .error "EISDIR: illegal operation on a directory"
  | none => .error "ENOENT: no such file or directory"

/-- Models `fs.writeFile(p, content)`: creates or overwrites a regular file;
fails when `p` names a directory or a parent is missing or not a directory. -/
def fsWrite : FsNode → List String → String → Except String FsNode
  | .dir _, [], _ => .error "EISDIR: illegal operation on a directory"
  | .file _, [], c => .ok (.file c)
  | .file _, _ :: _, _ => .error "ENOTDIR: not a directory"
  | .dir es, [c], content =>
    match es.find? (fun e => e.1 = c) with
    | some ⟨_, .dir _⟩ => .error "EISDIR: illegal operation on a directory"
    | _ => .ok (.dir (setEntry es c (.file content)))
  | .dir es, c :: cs, content =>
    match es.find? (fun e => e.1 = c) with
    | some e =>
      match fsWrite e.2 cs content with
      | .ok child => .ok (.dir (setEntry es c child))
      | .error m => .error m
    | none => .error "ENOENT: no such file or directory"

/-- Places an arbitrary node at `p` (the write half of `fs.rename`); fails
when a parent is missing or not a directory. -/
def fsSetNode : FsNode → List String → FsNode → Except String FsNode
  | _, [], n => .ok n
  | .file _, _ :: _, _ => .error "ENOTDIR: not a directory"
  | .dir es, [c], n => .ok (.dir (setEntry es c n))
  | .dir es, c :: cs, n =>
    match es.find? (fun e => e.1 = c) with
    | some e =>
      match fsSetNode e.2 cs n with
      | .ok child => .ok (.dir (setEntry es c child))
      | .error m => .error m
    | none => .error "ENOENT: no such file or directory"

/-- Models `fs.rename(src, dst)`: the source must exist; a destination that
exists as a directory accepts only a directory source (EISDIR for a file
source) and must be empty (ENOTEMPTY otherwise); the source node is then
detached and re-attached at the destination. Renaming a directory into its
own subtree (EINVAL) is not modelled. -/
def fsRename (fs : FsNode) (src dst : List String) : Except String FsNode :=
  match fs.lookup src with
  | none => .error "ENOENT: no such file or directory"
  | some n =>
    match fs.lookup dst with
    | some (.dir des) =>
      match n with
      | .file _ => .error "EISDIR: illegal operation on a directory"
      | .dir _ =>
        if des.isEmpty then fsSetNode (fsRemove fs src) dst n
        else .error "ENOTEMPTY: directory not empty"
    | _ => fsSetNode (fsRemove fs src) dst n

/-- Models `fs.unlink(p)`: removes a regular file only. -/
def fsUnlink (fs : FsNode) (p : List String) : Except String FsNode :=
  match fs.lookup p with
  | some (.file _) => .ok (fsRemove fs p)
  | some (.dir _) => .error "EPERM: operation not permitted, unlink"
  | none => .error "ENOENT: no such file or directory"

/-- Models `fs.mkdir(p, recursive)`: creates every missing component as a
directory; an already existing directory is accepted, a file in the way is
an error. -/
def fsMkdirp : FsNode → List String → Except String FsNode
  | .dir es, [] => .ok (.dir es)
  | .file _, [] => .error "ENOTDIR: not a directory"
  | .file _, _ :: _ => .error "ENOTDIR: not a directory"
  | .dir es, c :: cs =>
    match es.find? (fun e => e.1 = c) with
    | some e =>
      match fsMkdirp e.2 cs with
      | .ok child => .ok (.dir (setEntry es c child))
      | .error m => .error m
    | none =>
      match fsMkdirp (.dir []) cs with
      | .ok child => .ok (.dir (setEntry es c child))
      | .error m => .error m

/-- Models JS `Array.prototype.join(String.fromCharCode 10)` on a list of
names, as used for `list_files` and `list_directory_tree` output. -/
def joinNames : List String → String
  | [] => ""
  | [n] => n
  | n :: rest => n ++ "\n" ++ joinNames rest

/-- The recursive tree listing from `listTree` in the source: a directory
entry is emitted as its name suffixed `/` followed by its children, each
child line indented by two further spaces; a file entry is its name. -/
def listTree : List (String × FsNode) → List String
  | [] => []
  | (n, .file _) :: rest => n :: listTree rest
  | (n, .dir es) :: rest =>
    (n ++ "/") :: ((listTree es).map (fun s => "  " ++ s) ++ listTree rest)

/-- The body of the `read_directory_files` loop in the source: for each name
from readdir, stat the joined path, read it when it is a regular file, skip
it when it is a directory. -/
def readDirFilesLoop (fs : FsNode) (base : List String) :
    List String → Except String (List (String × String))
  | [] => .ok []
  | nm :: rest =>
    match fs.lookup (base ++ [nm]) with
    | some (.file c) =>
      match readDirFilesLoop fs base rest with
      | .ok r => .ok ((nm, c) :: r)
      | .error m => .error m
    | some (.dir _) => readDirFilesLoop fs base rest
    | none => .error "ENOENT: no such file or directory"

/-- The argument mapping of a tool call; a field is `none` when the model
did not supply that property (JS `undefined`). -/
structure ToolArgs where
  command : Option String
  path : Option String
  content : Option String
  source : Option String
  destination : Option String

/-- What `child_process.exec` hands the callback for one command: captured
stdout, captured stderr, and the error's exit code (`none` when the command
exited 0 and no error object was passed). -/
structure GitOutcome where
  stdout : String
  stderr : String
  errCode : Option Int

/-- A tool result as returned by `executeTool`: a plain string, the
structured git result, the filename-to-content mapping of
`read_directory_files`, the dry-run placeholder object, or the
`\x7berror: message\x7d` payload. -/
inductive ToolResult where
  | text (s : String)
  | gitResult (stdout stderr : String) (returnCode : Int)
  | fileMap (files : List (String × String))
  | dryStatus (s : String)
  | error (msg : String)

/-- Reading a required string argument; a missing property is `undefined`
in JS and makes the underlying path API throw, modelled as a thrown error. -/
def getArg : Option String → Except String String
  | some s => .ok s
  | none => .error "TypeError: argument must be of type string"

/-- The names of the eleven tools declared in `availableTools`. -/
def toolRegistry : List String :=
  ["run_git_command", "list_files", "read_file", "write_file", "move_file",
   "delete_file", "create_directory", "delete_directory",
   "list_directory_tree", "read_directory_files", "get_current_directory"]

/-- The body of the `try` block of `executeTool` in the source: the switch
on the tool name. `gitExec` is the environment's `child_process.exec`
behaviour; the result of `.error` here is a thrown JS exception, while the
unknown-name branch RETURNS an error payload (it does not throw). -/
def executeToolRaw (gitExec : String → GitOutcome) (workingDirectory : String)
    (name : String) (args : ToolArgs) (fs : FsNode) :
    Except String (ToolResult × FsNode) :=
  if name = "run_git_command" then
    let o := gitExec ("git " ++ (args.command.getD "undefined"))
    .ok (.gitResult o.stdout o.stderr (o.errCode.getD 0), fs)
  else if name = "list_files" then
    match getArg args.path with
    | .error m => .error m
    | .ok p =>
      match getSafePath workingDirectory p with
      | .error m => .error m
      | .ok listPath =>
        match fsReaddir fs (splitPath listPath) with
        | .error m => .error m
        | .ok files =>
          let s := joinNames files
          .ok (.text (if s = "" then "Directory is empty." else s), fs)
  else if name = "read_file" then
    match getArg args.path with
    | .error m => .error m
    | .ok p =>
      match getSafePath workingDirectory p with
      | .error m => .error m
      | .ok readPath =>
        match fsReadFile fs (splitPath readPath) with
        | .error m => .error m
        | .ok content => .ok (.text content, fs)
  else if name = "write_file" then
    match getArg args.path with
    | .error m => .error m
    | .ok p =>
      match getSafePath workingDirectory p with
      | .error m => .error m
      | .ok writePath =>
        match getArg args.content with
        | .error m => .error m
        | .ok content =>
          match fsWrite fs (splitPath writePath) content with
          | .error m => .error m
          | .ok fs2 => .ok (.text ("Successfully wrote to '" ++ p ++ "'."), fs2)
  else if name = "move_file" then
    match getArg args.source with
    | .error m => .error m
    | .ok s =>
      match getSafePath workingDirectory s with
      | .error m => .error m
      | .ok sourcePath =>
        match getArg args.destination with
        | .error m => .error m
        | .ok d =>
          match getSafePath workingDirectory d with
          | .error m => .error m
          | .ok destPath =>
            match fsRename fs (splitPath sourcePath) (splitPath destPath) with
            | .error m => .error m
            | .ok fs2 =>
              .ok (.text ("Successfully moved '" ++ s ++ "' to '" ++ d ++ "'."), fs2)
  else if name = "delete_file" then
    match getArg args.path with
    | .error m => .error m
    | .ok p =>
      match getSafePath workingDirectory p with
      | .error m => .error m
      | .ok deletePath =>
        match fsUnlink fs (splitPath deletePath) with
        | .error m => .error m
        | .ok fs2 => .ok (.text ("Successfully deleted file '" ++ p ++ "'."), fs2)
  else if name = "create_directory" then
    match getArg args.path with
    | .error m => .error m
    | .ok p =>
      match getSafePath workingDirectory p with
      | .error m => .error m
      | .ok createPath =>
        match fsMkdirp fs (splitPath createPath) with
        | .error m => .error m
        | .ok fs2 => .ok (.text ("Successfully created directory '" ++ p ++ "'."), fs2)
  else if name = "delete_directory" then
    match getArg args.path with
    | .error m => .error m
    | .ok p =>
      match getSafePath workingDirectory p with
      | .error m => .error m
      | .ok deleteDirPath =>
        match fsRm fs (splitPath deleteDirPath) with
        | .error m => .error m
        | .ok fs2 =>
          .ok (.text ("Successfully deleted directory '" ++ p ++ "' and all its contents."), fs2)
  else if name = "list_directory_tree" then
    match getArg args.path with
    | .error m => .error m
    | .ok p =>
      match getSafePath workingDirectory p with
      | .error m => .error m
      | .ok treePath =>
        match fs.lookup (splitPath treePath) with
        | some (.dir es) => .ok (.text (joinNames (listTree es)), fs)
        | some (.file _) => .error "ENOTDIR: not a directory"
        | none => .error "ENOENT: no such file or directory"
  else if name = "read_directory_files" then
    match getArg args.path with
    | .error m => .error m
    | .ok p =>
      match getSafePath workingDirectory p with
      | .error m => .error m
      | .ok readDirPath =>
        match fsReaddir fs (splitPath readDirPath) with
        | .error m => .error m
        | .ok dirFiles =>
          match readDirFilesLoop fs (splitPath readDirPath) dirFiles with
          | .error m => .error m
          | .ok fileContents => .ok (.fileMap fileContents, fs)
  else if name = "get_current_directory" then
    .ok (.text workingDirectory, fs)
  else
    .ok (.error ("Unknown tool: " ++ name), fs)

/-- `executeTool` from the source: the whole switch runs inside
`try ... catch (error) \x7b return \x7berror: error.message\x7d \x7d`, so a
thrown failure is converted to an error payload and the filesystem is left
as the (atomic) operations left it — unchanged when the operation threw. -/
def executeTool (gitExec : String → GitOutcome) (workingDirectory : String)
    (name : String) (args : ToolArgs) (fs : FsNode) : ToolResult × FsNode :=
  match executeToolRaw gitExec workingDirectory name args fs with
  | .ok r => r
  | .error m => (.error m, fs)

/-- One response of the reasoning service: either the first part carries a
function call (name and arguments), or it is terminal text. -/
inductive ModelResponse where
  | toolCall (name : String) (args : ToolArgs)
  | finalText (s : String)

/-- Observable record of one run of the agent loop: the tool calls displayed
to the operator in order, the calls actually dispatched to the executor, the
tool results reported back, the final answer (none when the fuel ran out
before the service stopped requesting tools), and the final filesystem. -/
structure Trace where
  displayed : List (String × ToolArgs)
  executed : List (String × ToolArgs)
  reported : List ToolResult
  final : Option String
  fsEnd : FsNode

/-- The `while` loop of `runGenerativeGitFlow`, driven by a reasoning-service
stub `oracle` giving the response of each turn. Each tool-call turn displays
the intended call, then either synthesizes the dry-run placeholder result or
dispatches through `executeTool`, reports the result, and continues; a
response with no function call terminates the loop with its text. `fuel`
bounds the number of turns observed (the source imposes no bound). -/
def runLoop (gitExec : String → GitOutcome) (workingDirectory : String)
    (oracle : Nat → ModelResponse) (dryRun : Bool) :
    Nat → Nat → FsNode → Trace
  | 0, _, fs => ⟨[], [], [], none, fs⟩
  | fuel + 1, turn, fs =>
    match oracle turn with
    | .finalText s => ⟨[], [], [], some s, fs⟩
    | .toolCall name args =>
      if dryRun then
        let rest := runLoop gitExec workingDirectory oracle dryRun fuel (turn + 1) fs
        ⟨(name, args) :: rest.displayed, rest.executed,
         ToolResult.dryStatus "Dry run mode, command not executed." :: rest.reported,
         rest.final, rest.fsEnd⟩
      else
        let out := executeTool gitExec workingDirectory name args fs
        let rest := runLoop gitExec workingDirectory oracle dryRun fuel (turn + 1) out.2
        ⟨(name, args) :: rest.displayed, (name, args) :: rest.executed,
         out.1 :: rest.reported, rest.final, rest.fsEnd⟩

/-- C1: the claim fails on the code. The Path Guard's string prefix check is
performed on the resolved path without a separator boundary, so with working
directory `/home/u/proj` the traversal `../proj-evil/x` resolves to the
sibling `/home/u/proj-evil/x`, which shares a string prefix with the working
directory: `getSafePath` accepts it even though it is neither the working
directory nor a descendant of it, where the claim requires PathDenied. -/
theorem getSafePath_sibling_escape_c1 :
    getSafePath "/home/u/proj" "../proj-evil/x" = Except.ok "/home/u/proj-evil/x" ∧
    isWithin "/home/u/proj" "/home/u/proj-evil/x" = false := by
  exact ⟨by rfl, by decide⟩

/-- C6: `run_git_command` always returns the structured
`\x7bstdout, stderr, return_code\x7d` result built from what `exec` handed
the callback, with `return_code` 0 when no error was passed and the error's
code otherwise; in particular a non-zero exit is a normal structured result,
never an `\x7berror\x7d` payload. -/
theorem runGitCommand_structured_c6 (gitExec : String → GitOutcome)
    (workingDirectory : String) (args : ToolArgs) (fs : FsNode) :
    executeTool gitExec workingDirectory "run_git_command" args fs =
      (ToolResult.gitResult (gitExec ("git " ++ (args.command.getD "undefined"))).stdout
        (gitExec ("git " ++ (args.command.getD "undefined"))).stderr
        ((gitExec ("git " ++ (args.command.getD "undefined"))).errCode.getD 0), fs) := by
  rfl

/-- C2: the executor never raises past its boundary: for every tool name,
argument mapping and filesystem, either the switch body succeeded and
`executeTool` returns its result unchanged, or the body threw some message
`m` and `executeTool` returns the `\x7berror: m\x7d` payload with the
filesystem untouched — an exception is always converted to data. -/
theorem executeTool_total_c2 (gitExec : String → GitOutcome)
    (workingDirectory name : String) (args : ToolArgs) (fs : FsNode) :
    (∃ r, executeToolRaw gitExec workingDirectory name args fs = .ok r ∧
          executeTool gitExec workingDirectory name args fs = r) ∨
    (∃ m, executeToolRaw gitExec workingDirectory name args fs = .error m ∧
          executeTool gitExec workingDirectory name args fs = (ToolResult.error m, fs)) := by
  cases h : executeToolRaw gitExec workingDirectory name args fs with
  | ok r => exact Or.inl ⟨r, rfl, by simp [executeTool, h]⟩
  | error m => exact Or.inr ⟨m, rfl, by simp [executeTool, h]⟩

/-- C5: the registry has exactly eleven entries, and for every name outside
it the executor returns exactly the `\x7berror: Unknown tool: name\x7d`
payload, leaving the filesystem untouched, instead of raising. -/
theorem unknownTool_error_c5 (gitExec : String → GitOutcome)
    (workingDirectory name : String) (args : ToolArgs) (fs : FsNode)
    (h : name ∉ toolRegistry) :
    toolRegistry.length = 11 ∧
    executeTool gitExec workingDirectory name args fs =
      (ToolResult.error ("Unknown tool: " ++ name), fs) := by
  simp only [toolRegistry, List.mem_cons, List.not_mem_nil, or_false, not_or] at h
  obtain ⟨h1, h2, h3, h4, h5, h6, h7, h8, h9, h10, h11⟩ := h
  refine ⟨rfl, ?_⟩
  simp [executeTool, executeToolRaw, h1, h2, h3, h4, h5, h6, h7, h8, h9, h10, h11]

/-- Closed instance of C5: the made-up name gives exactly the unknown-tool
error payload and an unchanged filesystem. -/
theorem unknownTool_error_c5_witness :
    executeTool (fun _ => ⟨"", "", none⟩) "/w" "frobnicate"
      ⟨none, none, none, none, none⟩ (FsNode.dir []) =
      (ToolResult.error "Unknown tool: frobnicate", FsNode.dir []) := by
  have h := unknownTool_error_c5 (fun _ => ⟨"", "", none⟩) "/w" "frobnicate"
    ⟨none, none, none, none, none⟩ (FsNode.dir []) (by decide)
  simpa using h.2

lemma find?_filter_ne (c : String) (es : List (String × FsNode)) :
    (es.filter (fun e => e.1 ≠ c)).find? (fun e => e.1 = c) = none := by
  induction es with
  | nil => rfl
  | cons e es ih =>
    by_cases h : e.1 = c
    · simp [List.filter_cons, h, ih]
    · simp [List.filter_cons, h, ih]

lemma lookup_dir_cons (es : List (String × FsNode)) (c : String) (cs : List String) :
    (FsNode.dir es).lookup (c :: cs) =
      match es.find? (fun e => e.1 = c) with
      | some e => e.2.lookup cs
      | none => none := rfl

lemma find?_setEntry (c : String) (n : FsNode) : ∀ es : List (String × FsNode),
    (setEntry es c n).find? (fun e => e.1 = c) = some (c, n) := by
  intro es
  induction es with
  | nil => simp [setEntry]
  | cons e es ih =>
    by_cases h : e.1 = c
    · simp [setEntry, h]
    · simp [setEntry, h, ih]

lemma setEntry_self (c : String) : ∀ (es : List (String × FsNode)) (e : String × FsNode),
    es.find? (fun x => x.1 = c) = some e → setEntry es c e.2 = es := by
  intro es
  induction es with
  | nil => intro e h; exact Option.noConfusion h
  | cons a es ih =>
    intro e h
    by_cases ha : a.1 = c
    · rw [List.find?_cons_of_pos _ (by simpa using ha)] at h
      obtain rfl := Option.some.inj h
      rw [setEntry, if_pos ha, ← ha, Prod.mk.eta]
    · rw [List.find?_cons_of_neg _ (by simpa using ha)] at h
      rw [setEntry, if_neg ha, ih e h]

/-- When `fsRm` succeeds on a non-root path, that path no longer resolves in
the returned tree. -/
lemma fsRm_ok_lookup_none : ∀ (cs : List String) (c : String) (fs fs2 : FsNode),
    fsRm fs (c :: cs) = .ok fs2 → fs2.lookup (c :: cs) = none := by
  intro cs
  induction cs with
  | nil =>
    intro c fs fs2 h
    cases fs with
    | file d => exact Except.noConfusion h
    | dir es =>
      obtain rfl := Except.ok.inj h
      rw [lookup_dir_cons, find?_filter_ne]
  | cons c' cs' ih =>
    intro c fs fs2 h
    cases fs with
    | file d => exact Except.noConfusion h
    | dir es =>
      simp only [fsRm] at h
      cases hf : es.find? (fun e => e.1 = c) with
      | none =>
        simp only [hf] at h
        obtain rfl := Except.ok.inj h
        rw [lookup_dir_cons, hf]
      | some e =>
        simp only [hf] at h
        cases hr : fsRm e.2 (c' :: cs') with
        | error m => simp only [hr] at h; exact Except.noConfusion h
        | ok child =>
          simp only [hr] at h
          obtain rfl := Except.ok.inj h
          rw [lookup_dir_cons, find?_setEntry]
          exact ih c' e.2 child hr

/-- `fsRm` succeeds on every non-root path whose walk meets no regular file
before the final component. -/
lemma fsRm_ok_of_not_obstructed : ∀ (cs : List String) (c : String) (fs : FsNode),
    fileObstructs fs (c :: cs) = false → ∃ fs2, fsRm fs (c :: cs) = .ok fs2 := by
  intro cs
  induction cs with
  | nil =>
    intro c fs h
    cases fs with
    | file d => exact Bool.noConfusion h
    | dir es => exact ⟨FsNode.dir (es.filter (fun e => e.1 ≠ c)), rfl⟩
  | cons c' cs' ih =>
    intro c fs h
    cases fs with
    | file d => exact Bool.noConfusion h
    | dir es =>
      simp only [fileObstructs] at h
      cases hf : es.find? (fun e => e.1 = c) with
      | none =>
        refine ⟨FsNode.dir es, ?_⟩
        simp only [fsRm, hf]
      | some e =>
        simp only [hf] at h
        obtain ⟨child, hc⟩ := ih c' e.2 h
        refine ⟨FsNode.dir (setEntry es c child), ?_⟩
        simp only [fsRm, hf, hc]

/-- `fsRm` rejects with ENOTDIR exactly when the walk meets a regular file
before the final component. -/
lemma fsRm_err_of_obstructed : ∀ (cs : List String) (c : String) (fs : FsNode),
    fileObstructs fs (c :: cs) = true →
    fsRm fs (c :: cs) = .error "ENOTDIR: not a directory" := by
  intro cs
  induction cs with
  | nil =>
    intro c fs h
    cases fs with
    | file d => rfl
    | dir es =>
      simp only [fileObstructs] at h
      cases hf : es.find? (fun e => e.1 = c) with
      | none => rw [hf] at h; exact Bool.noConfusion h
      | some e => simp only [hf, fileObstructs] at h; exact Bool.noConfusion h
  | cons c' cs' ih =>
    intro c fs h
    cases fs with
    | file d => rfl
    | dir es =>
      simp only [fileObstructs] at h
      cases hf : es.find? (fun e => e.1 = c) with
      | none => rw [hf] at h; exact Bool.noConfusion h
      | some e =>
        simp only [hf] at h
        simp only [fsRm, hf, ih c' e.2 h]

/-- On an unobstructed missing path, `fsRm` succeeds and leaves the tree
unchanged (the ENOENT case that `force` swallows). -/
lemma fsRm_missing_self : ∀ (cs : List String) (c : String) (fs : FsNode),
    fileObstructs fs (c :: cs) = false → fs.lookup (c :: cs) = none →
    fsRm fs (c :: cs) = .ok fs := by
  intro cs
  induction cs with
  | nil =>
    intro c fs hob hlk
    cases fs with
    | file d => exact Bool.noConfusion hob
    | dir es =>
      rw [lookup_dir_cons] at hlk
      cases hf : es.find? (fun e => e.1 = c) with
      | some e => simp only [hf, FsNode.lookup] at hlk; exact Option.noConfusion hlk
      | none =>
        simp only [fsRm]
        have hfe : es.filter (fun e => e.1 ≠ c) = es := by
          rw [List.filter_eq_self]
          intro a ha
          have := List.find?_eq_none.mp hf a ha
          simpa using this
        rw [hfe]
  | cons c' cs' ih =>
    intro c fs hob hlk
    cases fs with
    | file d => exact Bool.noConfusion hob
    | dir es =>
      simp only [fileObstructs] at hob
      rw [lookup_dir_cons] at hlk
      cases hf : es.find? (fun e => e.1 = c) with
      | none =>
        simp only [fsRm]
        rw [hf]
      | some e =>
        simp only [hf] at hob hlk
        have hrec := ih c' e.2 hob hlk
        simp only [fsRm, hf, hrec, setEntry_self c es e hf]

/-- C9, counterexample: with `file.txt` an existing regular file, the target
`file.txt/sub` does not exist (it resolves to nothing), yet `delete_directory`
returns an error payload instead of a success ToolResult: the underlying
`fs.rm` force-swallows only ENOENT, not the ENOTDIR raised when an
intermediate component is a regular file. -/
theorem deleteDirectory_c9_counterexample :
    FsNode.lookup (FsNode.dir [("w", FsNode.dir [("file.txt", FsNode.file "data")])])
      (splitPath "/w/file.txt/sub") = none ∧
    getSafePath "/w" "file.txt/sub" = Except.ok "/w/file.txt/sub" ∧
    executeTool (fun _ => ⟨"", "", none⟩) "/w" "delete_directory"
      ⟨none, some "file.txt/sub", none, none, none⟩
      (FsNode.dir [("w", FsNode.dir [("file.txt", FsNode.file "data")])]) =
      (ToolResult.error "ENOTDIR: not a directory",
       FsNode.dir [("w", FsNode.dir [("file.txt", FsNode.file "data")])]) :=
  ⟨rfl, rfl, rfl⟩

/-- C9 as amended: `delete_directory` removes the named directory and all of
its contents recursively, and a missing target still yields the success
result — provided no intermediate component of the path is an existing
regular file; when one is, the underlying rm rejects with ENOTDIR and the
executor returns the error payload with the tree unchanged. -/
theorem deleteDirectory_c9_amended (gitExec : String → GitOutcome) (wd p rp : String)
    (args : ToolArgs) (fs : FsNode)
    (h1 : args.path = some p) (h2 : getSafePath wd p = .ok rp)
    (h3 : splitPath rp ≠ []) :
    (fileObstructs fs (splitPath rp) = false →
      ∃ fs2, fsRm fs (splitPath rp) = .ok fs2 ∧
        executeTool gitExec wd "delete_directory" args fs =
          (ToolResult.text ("Successfully deleted directory '" ++ p ++
            "' and all its contents."), fs2) ∧
        fs2.lookup (splitPath rp) = none) ∧
    (fileObstructs fs (splitPath rp) = false → fs.lookup (splitPath rp) = none →
      executeTool gitExec wd "delete_directory" args fs =
        (ToolResult.text ("Successfully deleted directory '" ++ p ++
          "' and all its contents."), fs)) ∧
    (fileObstructs fs (splitPath rp) = true →
      executeTool gitExec wd "delete_directory" args fs =
        (ToolResult.error "ENOTDIR: not a directory", fs)) := by
  obtain ⟨c, cs, hsp⟩ : ∃ c cs, splitPath rp = c :: cs := by
    cases hsp : splitPath rp with
    | nil => exact absurd hsp h3
    | cons c cs => exact ⟨c, cs, rfl⟩
  refine ⟨?_, ?_, ?_⟩
  · intro hob
    obtain ⟨fs2, hrm⟩ := fsRm_ok_of_not_obstructed cs c fs (by rw [← hsp]; exact hob)
    have hrm2 : fsRm fs (splitPath rp) = .ok fs2 := by rw [hsp]; exact hrm
    refine ⟨fs2, hrm2, ?_, by rw [hsp]; exact fsRm_ok_lookup_none cs c fs fs2 hrm⟩
    simp [executeTool, executeToolRaw, h1, h2, getArg, hrm2]
  · intro hob hlk
    have hrm2 : fsRm fs (splitPath rp) = .ok fs := by
      rw [hsp]
      exact fsRm_missing_self cs c fs (by rw [← hsp]; exact hob) (by rw [← hsp]; exact hlk)
    simp [executeTool, executeToolRaw, h1, h2, getArg, hrm2]
  · intro hob
    have hrm2 : fsRm fs (splitPath rp) = .error "ENOTDIR: not a directory" := by
      rw [hsp]
      exact fsRm_err_of_obstructed cs c fs (by rw [← hsp]; exact hob)
    simp [executeTool, executeToolRaw, h1, h2, getArg, hrm2]

/-- Closed instance of the amended C9: deleting a directory that does not
exist, under a parent that does, still returns the success result and leaves
the tree unchanged. -/
theorem deleteDirectory_c9_amended_witness :
    executeTool (fun _ => ⟨"", "", none⟩) "/w" "delete_directory"
      ⟨none, some "sub", none, none, none⟩
      (FsNode.dir [("w", FsNode.dir [("keep.txt", FsNode.file "k")])]) =
      (ToolResult.text "Successfully deleted directory 'sub' and all its contents.",
       FsNode.dir [("w", FsNode.dir [("keep.txt", FsNode.file "k")])]) :=
  (deleteDirectory_c9_amended (fun _ => ⟨"", "", none⟩) "/w" "sub" "/w/sub"
    ⟨none, some "sub", none, none, none⟩
    (FsNode.dir [("w", FsNode.dir [("keep.txt", FsNode.file "k")])])
    rfl rfl (by decide)).2.1 rfl rfl

/-- C8: the tree listing suffixes each directory with a slash and indents
each nested entry by two spaces per level: a directory holding a file
`a.txt` and a subdirectory `b` containing `c.txt` (listed first) yields
exactly the lines `b/`, two-space-indented `c.txt`, and `a.txt`, and
`list_directory_tree` returns them joined by newlines. -/
theorem listTree_format_c8 (gitExec : String → GitOutcome) (wd p rp s t : String)
    (args : ToolArgs) (fs : FsNode)
    (h1 : args.path = some p) (h2 : getSafePath wd p = .ok rp)
    (h3 : fs.lookup (splitPath rp) =
      some (.dir [("b", .dir [("c.txt", .file s)]), ("a.txt", .file t)])) :
    listTree [("b", FsNode.dir [("c.txt", FsNode.file s)]), ("a.txt", FsNode.file t)] =
      ["b/", "  c.txt", "a.txt"] ∧
    executeTool gitExec wd "list_directory_tree" args fs =
      (ToolResult.text "b/\n  c.txt\na.txt", fs) := by
  constructor
  · simp [listTree]
  · simp [executeTool, executeToolRaw, h1, h2, h3, getArg, listTree, joinNames]

/-- Closed instance of C8 at a concrete filesystem. -/
theorem listTree_format_c8_witness :
    executeTool (fun _ => ⟨"", "", none⟩) "/w" "list_directory_tree"
      ⟨none, some ".", none, none, none⟩
      (FsNode.dir [("w", FsNode.dir
        [("b", FsNode.dir [("c.txt", FsNode.file "C")]), ("a.txt", FsNode.file "A")])]) =
      (ToolResult.text "b/\n  c.txt\na.txt",
       FsNode.dir [("w", FsNode.dir
        [("b", FsNode.dir [("c.txt", FsNode.file "C")]), ("a.txt", FsNode.file "A")])]) := by
  have h := listTree_format_c8 (fun _ => ⟨"", "", none⟩) "/w" "." "/w" "C" "A"
    ⟨none, some ".", none, none, none⟩
    (FsNode.dir [("w", FsNode.dir
      [("b", FsNode.dir [("c.txt", FsNode.file "C")]), ("a.txt", FsNode.file "A")])])
    rfl rfl rfl
  exact h.2

/-- The mapping `read_directory_files` builds for one directory entry:
file entries contribute their name and content, directory entries nothing. -/
def fileEntry (e : String × FsNode) : Option (String × String) :=
  match e.2 with
  | .file c => some (e.1, c)
  | .dir _ => none

lemma lookup_append (p : List String) : ∀ (fs : FsNode) (q : List String),
    fs.lookup (p ++ q) =
      match fs.lookup p with
      | some n => n.lookup q
      | none => none := by
  induction p with
  | nil => intro fs q; simp [FsNode.lookup]
  | cons c cs ih =>
    intro fs q
    cases fs with
    | file d => rfl
    | dir es =>
      rw [List.cons_append, lookup_dir_cons, lookup_dir_cons]
      cases es.find? (fun e => e.1 = c) with
      | none => rfl
      | some e => exact ih e.2 q

lemma find?_self_of_nodup : ∀ (es : List (String × FsNode)),
    (es.map (fun e => e.1)).Nodup → ∀ e ∈ es, es.find? (fun x => x.1 = e.1) = some e := by
  intro es
  induction es with
  | nil => intro _ e he; exact absurd he (List.not_mem_nil e)
  | cons a es ih =>
    intro hnd e he
    rw [List.map_cons, List.nodup_cons] at hnd
    rcases List.mem_cons.mp he with rfl | he'
    · simp
    · have hne : a.1 ≠ e.1 := fun hey => hnd.1 (hey ▸ List.mem_map_of_mem (fun x => x.1) he')
      rw [List.find?_cons_of_neg _ (by simpa using hne)]
      exact ih hnd.2 e he'

lemma readDirFilesLoop_spec (fs : FsNode) (base : List String)
    (es : List (String × FsNode)) (h : fs.lookup base = some (.dir es)) :
    ∀ ds : List (String × FsNode),
      (∀ e ∈ ds, es.find? (fun x => x.1 = e.1) = some e) →
      readDirFilesLoop fs base (ds.map (fun e => e.1)) = .ok (ds.filterMap fileEntry) := by
  intro ds
  induction ds with
  | nil => intro _; rfl
  | cons d ds ih =>
    intro hinv
    have hd : es.find? (fun x => x.1 = d.1) = some d := hinv d (List.mem_cons_self d ds)
    have hstep : fs.lookup (base ++ [d.1]) = some d.2 := by
      rw [lookup_append, h]
      show (FsNode.dir es).lookup [d.1] = some d.2
      rw [lookup_dir_cons, hd]
      simp [FsNode.lookup]
    rw [List.map_cons, readDirFilesLoop, hstep]
    have hrest := ih (fun e he => hinv e (List.mem_cons_of_mem d he))
    cases hdn : d.2 with
    | file c => rw [List.filterMap_cons]; simp [fileEntry, hdn, hrest]
    | dir des => rw [List.filterMap_cons]; simp [fileEntry, hdn, hrest]

lemma filterMap_fileEntry_keys : ∀ es : List (String × FsNode),
    (es.filterMap fileEntry).map (fun e => e.1) =
      (es.filter (fun e => match e.2 with | .file _ => true | .dir _ => false)).map
        (fun e => e.1) := by
  intro es
  induction es with
  | nil => rfl
  | cons e es ih =>
    cases hn : e.2 with
    | file c => simp [List.filterMap_cons, List.filter_cons, fileEntry, hn, ih]
    | dir des => simp [List.filterMap_cons, List.filter_cons, fileEntry, hn, ih]

/-- C7: on a directory with distinct entry names, `read_directory_files`
returns the mapping whose keys are exactly the names of the regular-file
entries, each mapped to that file's content, and every subdirectory entry is
omitted without an error. -/
theorem readDirectoryFiles_c7 (gitExec : String → GitOutcome) (wd p rp : String)
    (args : ToolArgs) (fs : FsNode) (es : List (String × FsNode))
    (h1 : args.path = some p) (h2 : getSafePath wd p = .ok rp)
    (h3 : fs.lookup (splitPath rp) = some (.dir es))
    (h4 : (es.map (fun e => e.1)).Nodup) :
    executeTool gitExec wd "read_directory_files" args fs =
      (ToolResult.fileMap (es.filterMap fileEntry), fs) ∧
    (es.filterMap fileEntry).map (fun e => e.1) =
      (es.filter (fun e => match e.2 with | .file _ => true | .dir _ => false)).map
        (fun e => e.1) := by
  refine ⟨?_, filterMap_fileEntry_keys es⟩
  have hloop := readDirFilesLoop_spec fs (splitPath rp) es h3 es (find?_self_of_nodup es h4)
  simp [executeTool, executeToolRaw, h1, h2, h3, getArg, fsReaddir, hloop]

/-- Closed instance of C7: a directory holding files `x.txt`, `y.txt` and a
subdirectory `z` yields exactly the keys `x.txt` and `y.txt`. -/
theorem readDirectoryFiles_c7_witness :
    executeTool (fun _ => ⟨"", "", none⟩) "/w" "read_directory_files"
      ⟨none, some ".", none, none, none⟩
      (FsNode.dir [("w", FsNode.dir
        [("x.txt", FsNode.file "X"), ("y.txt", FsNode.file "Y"), ("z", FsNode.dir [])])]) =
      (ToolResult.fileMap [("x.txt", "X"), ("y.txt", "Y")],
       FsNode.dir [("w", FsNode.dir
        [("x.txt", FsNode.file "X"), ("y.txt", FsNode.file "Y"), ("z", FsNode.dir [])])]) := by
  have h := readDirectoryFiles_c7 (fun _ => ⟨"", "", none⟩) "/w" "." "/w"
    ⟨none, some ".", none, none, none⟩
    (FsNode.dir [("w", FsNode.dir
      [("x.txt", FsNode.file "X"), ("y.txt", FsNode.file "Y"), ("z", FsNode.dir [])])])
    [("x.txt", FsNode.file "X"), ("y.txt", FsNode.file "Y"), ("z", FsNode.dir [])]
    rfl rfl rfl (by decide)
  exact h.1

lemma joinNames_ne_empty (n : String) (l : List String) (hn : n ≠ "") :
    joinNames (n :: l) ≠ "" := by
  cases l with
  | nil => simpa [joinNames] using hn
  | cons m r =>
    intro heq
    have hlen := congrArg String.length heq
    rw [show joinNames (n :: m :: r) = n ++ "\n" ++ joinNames (m :: r) from rfl,
      String.length_append, String.length_append,
      show ("\n" : String).length = 1 from rfl,
      show ("" : String).length = 0 from rfl] at hlen
    omega

/-- C10: `list_files` on an existing directory returns the literal text
`Directory is empty.` when the directory has no entries, and the entry names
joined by newlines when it has any (entry names on a real filesystem are
never the empty string, hypothesis `h4`). -/
theorem listFiles_c10 (gitExec : String → GitOutcome) (wd p rp : String)
    (args : ToolArgs) (fs : FsNode) (es : List (String × FsNode))
    (h1 : args.path = some p) (h2 : getSafePath wd p = .ok rp)
    (h3 : fs.lookup (splitPath rp) = some (.dir es))
    (h4 : ∀ e ∈ es, (e : String × FsNode).1 ≠ "") :
    (es = [] → executeTool gitExec wd "list_files" args fs =
      (ToolResult.text "Directory is empty.", fs)) ∧
    (es ≠ [] → executeTool gitExec wd "list_files" args fs =
      (ToolResult.text (joinNames (es.map (fun e => e.1))), fs)) := by
  constructor
  · intro he
    subst he
    simp [executeTool, executeToolRaw, h1, h2, h3, getArg, fsReaddir, joinNames]
  · intro he
    cases es with
    | nil => exact absurd rfl he
    | cons a es' =>
      have hne : joinNames (a.1 :: es'.map (fun e => e.1)) ≠ "" :=
        joinNames_ne_empty a.1 (es'.map (fun e => e.1))
          (h4 a (List.mem_cons_self a es'))
      simp [executeTool, executeToolRaw, h1, h2, h3, getArg, fsReaddir, hne]

/-- Closed instance of C10: an empty directory gives the literal text, a
directory with two files gives their names joined by a newline. -/
theorem listFiles_c10_witness :
    executeTool (fun _ => ⟨"", "", none⟩) "/w" "list_files"
      ⟨none, some ".", none, none, none⟩ (FsNode.dir [("w", FsNode.dir [])]) =
      (ToolResult.text "Directory is empty.", FsNode.dir [("w", FsNode.dir [])]) ∧
    executeTool (fun _ => ⟨"", "", none⟩) "/w" "list_files"
      ⟨none, some ".", none, none, none⟩
      (FsNode.dir [("w", FsNode.dir [("a.txt", FsNode.file "A"), ("b.txt", FsNode.file "B")])]) =
      (ToolResult.text "a.txt\nb.txt",
       FsNode.dir [("w", FsNode.dir [("a.txt", FsNode.file "A"), ("b.txt", FsNode.file "B")])]) := by
  constructor
  · exact (listFiles_c10 (fun _ => ⟨"", "", none⟩) "/w" "." "/w"
      ⟨none, some ".", none, none, none⟩ (FsNode.dir [("w", FsNode.dir [])]) []
      rfl rfl rfl (by decide)).1 rfl
  · exact (listFiles_c10 (fun _ => ⟨"", "", none⟩) "/w" "." "/w"
      ⟨none, some ".", none, none, none⟩
      (FsNode.dir [("w", FsNode.dir [("a.txt", FsNode.file "A"), ("b.txt", FsNode.file "B")])])
      [("a.txt", FsNode.file "A"), ("b.txt", FsNode.file "B")]
      rfl rfl rfl (by decide)).2 (List.cons_ne_nil _ _)

lemma runLoop_final (g : String → GitOutcome) (wd : String)
    (oracle : Nat → ModelResponse) (dr : Bool) (fuel turn : Nat) (fs : FsNode)
    (u : String) (h : oracle turn = .finalText u) :
    runLoop g wd oracle dr (fuel + 1) turn fs = ⟨[], [], [], some u, fs⟩ := by
  simp [runLoop, h]

lemma runLoop_toolCall_real (g : String → GitOutcome) (wd : String)
    (oracle : Nat → ModelResponse) (fuel turn : Nat) (fs : FsNode)
    (n : String) (a : ToolArgs) (h : oracle turn = .toolCall n a) :
    runLoop g wd oracle false (fuel + 1) turn fs =
      ⟨(n, a) :: (runLoop g wd oracle false fuel (turn + 1)
          (executeTool g wd n a fs).2).displayed,
       (n, a) :: (runLoop g wd oracle false fuel (turn + 1)
          (executeTool g wd n a fs).2).executed,
       (executeTool g wd n a fs).1 :: (runLoop g wd oracle false fuel (turn + 1)
          (executeTool g wd n a fs).2).reported,
       (runLoop g wd oracle false fuel (turn + 1) (executeTool g wd n a fs).2).final,
       (runLoop g wd oracle false fuel (turn + 1) (executeTool g wd n a fs).2).fsEnd⟩ := by
  simp [runLoop, h]

lemma runLoop_toolCall_dry (g : String → GitOutcome) (wd : String)
    (oracle : Nat → ModelResponse) (fuel turn : Nat) (fs : FsNode)
    (n : String) (a : ToolArgs) (h : oracle turn = .toolCall n a) :
    runLoop g wd oracle true (fuel + 1) turn fs =
      ⟨(n, a) :: (runLoop g wd oracle true fuel (turn + 1) fs).displayed,
       (runLoop g wd oracle true fuel (turn + 1) fs).executed,
       ToolResult.dryStatus "Dry run mode, command not executed." ::
         (runLoop g wd oracle true fuel (turn + 1) fs).reported,
       (runLoop g wd oracle true fuel (turn + 1) fs).final,
       (runLoop g wd oracle true fuel (turn + 1) fs).fsEnd⟩ := by
  simp [runLoop, h]

/-- C3: the loop terminates exactly on a response with no function call.
With a stub that requests one tool call and then answers, it executes
exactly that one call and surfaces the terminal text (for any fuel at least
two); with a stub that never stops requesting tools, no amount of fuel
produces a final answer; and whenever the current response is terminal text
the loop stops at once with that text, executing nothing. -/
theorem agentLoop_termination_c3 (g : String → GitOutcome) (wd : String)
    (oracle : Nat → ModelResponse) (n : String) (a : ToolArgs) (s : String)
    (fs : FsNode) (k : Nat) :
    (oracle 0 = .toolCall n a → oracle 1 = .finalText s →
      (runLoop g wd oracle false (k + 2) 0 fs).final = some s ∧
      (runLoop g wd oracle false (k + 2) 0 fs).executed = [(n, a)]) ∧
    ((∀ t u, oracle t ≠ .finalText u) →
      ∀ fuel turn fs2, (runLoop g wd oracle false fuel turn fs2).final = none) ∧
    (∀ fuel turn fs2 u, oracle turn = .finalText u →
      (runLoop g wd oracle false (fuel + 1) turn fs2).final = some u ∧
      (runLoop g wd oracle false (fuel + 1) turn fs2).executed = []) := by
  refine ⟨?_, ?_, ?_⟩
  · intro h0 h1
    rw [show k + 2 = (k + 1) + 1 from rfl,
      runLoop_toolCall_real g wd oracle (k + 1) 0 fs n a h0,
      runLoop_final g wd oracle false k 1 (executeTool g wd n a fs).2 s h1]
    exact ⟨rfl, rfl⟩
  · intro h fuel
    induction fuel with
    | zero => intro turn fs2; rfl
    | succ f ih =>
      intro turn fs2
      cases ho : oracle turn with
      | finalText u => exact absurd ho (h turn u)
      | toolCall n' a' =>
        rw [runLoop_toolCall_real g wd oracle f turn fs2 n' a' ho]
        exact ih (turn + 1) (executeTool g wd n' a' fs2).2
  · intro fuel turn fs2 u hu
    rw [runLoop_final g wd oracle false fuel turn fs2 u hu]
    exact ⟨rfl, rfl⟩

/-- The stub that asks for one tool call and then answers. -/
def oracleOnce : Nat → ModelResponse := fun t =>
  if t = 0 then .toolCall "get_current_directory" ⟨none, none, none, none, none⟩
  else .finalText "done"

/-- The stub that never stops requesting tools. -/
def oracleForever : Nat → ModelResponse := fun _ =>
  .toolCall "run_git_command" ⟨some "status", none, none, none, none⟩

/-- Closed instance of C3: the one-call stub runs exactly one tool and ends
with its text; the never-ending stub has no final answer after five turns. -/
theorem agentLoop_termination_c3_witness :
    (runLoop (fun _ => ⟨"", "", none⟩) "/w" oracleOnce false 2 0 (FsNode.dir [])).final =
      some "done" ∧
    (runLoop (fun _ => ⟨"", "", none⟩) "/w" oracleOnce false 2 0 (FsNode.dir [])).executed =
      [("get_current_directory", ⟨none, none, none, none, none⟩)] ∧
    (runLoop (fun _ => ⟨"", "", none⟩) "/w" oracleForever false 5 0 (FsNode.dir [])).final =
      none := by
  have h := agentLoop_termination_c3 (fun _ => ⟨"", "", none⟩) "/w" oracleOnce
    "get_current_directory" ⟨none, none, none, none, none⟩ "done" (FsNode.dir []) 0
  have h2 := agentLoop_termination_c3 (fun _ => ⟨"", "", none⟩) "/w" oracleForever
    "x" ⟨none, none, none, none, none⟩ "y" (FsNode.dir []) 0
  exact ⟨(h.1 rfl rfl).1, (h.1 rfl rfl).2,
    h2.2.1 (fun t u hid => ModelResponse.noConfusion hid) 5 0 (FsNode.dir [])⟩

lemma runLoop_displayed_indep (g : String → GitOutcome) (wd : String)
    (oracle : Nat → ModelResponse) : ∀ (fuel : Nat) (d1 d2 : Bool) (turn : Nat)
    (fs1 fs2 : FsNode),
    (runLoop g wd oracle d1 fuel turn fs1).displayed =
      (runLoop g wd oracle d2 fuel turn fs2).displayed := by
  intro fuel
  induction fuel with
  | zero => intro d1 d2 turn fs1 fs2; rfl
  | succ f ih =>
    intro d1 d2 turn fs1 fs2
    cases ho : oracle turn with
    | finalText u =>
      rw [runLoop_final g wd oracle d1 f turn fs1 u ho,
        runLoop_final g wd oracle d2 f turn fs2 u ho]
    | toolCall n a =>
      cases d1 <;> cases d2 <;>
        simp only [runLoop_toolCall_real g wd oracle f turn _ n a ho,
          runLoop_toolCall_dry g wd oracle f turn _ n a ho] <;>
        exact congrArg ((n, a) :: ·) (ih _ _ (turn + 1) _ _)

/-- C4: with the same service responses, a dry run displays exactly the
same sequence of intended tool calls as a real run, dispatches nothing to
the executor, leaves the filesystem untouched, and reports the placeholder
status result once per displayed call. -/
theorem dryRun_parity_c4 (g : String → GitOutcome) (wd : String)
    (oracle : Nat → ModelResponse) (fuel turn : Nat) (fs : FsNode) :
    (runLoop g wd oracle true fuel turn fs).displayed =
      (runLoop g wd oracle false fuel turn fs).displayed ∧
    (runLoop g wd oracle true fuel turn fs).executed = [] ∧
    (runLoop g wd oracle true fuel turn fs).fsEnd = fs ∧
    (runLoop g wd oracle true fuel turn fs).reported =
      List.replicate (runLoop g wd oracle true fuel turn fs).displayed.length
        (ToolResult.dryStatus "Dry run mode, command not executed.") := by
  refine ⟨runLoop_displayed_indep g wd oracle fuel true false turn fs fs, ?_⟩
  induction fuel generalizing turn with
  | zero => exact ⟨rfl, rfl, rfl⟩
  | succ f ih =>
    cases ho : oracle turn with
    | finalText u =>
      rw [runLoop_final g wd oracle true f turn fs u ho]
      exact ⟨rfl, rfl, rfl⟩
    | toolCall n a =>
      rw [runLoop_toolCall_dry g wd oracle f turn fs n a ho]
      obtain ⟨he, hf, hr⟩ := ih (turn + 1)
      refine ⟨he, hf, ?_⟩
      simp [hr, List.replicate_succ]

end GitFlash
